import Mathlib

/-!
Verification of the DayPlanner server (src/server.py) against its design
specification.  The Python code is shallowly embedded as executable Lean
definitions:

* Python dicts become insertion-ordered association lists
  (`List (String × _)`); assignment to an existing key replaces the value in
  place, assignment to a fresh key appends, matching CPython dict semantics.
* Python floats are modelled as exact rationals (`PyF`, an explicit
  numerator/denominator fraction, so every value is kernel-computable);
  `round` is modelled by
  `roundPy`, which implements round-half-to-even as CPython does.
* The JSON serialisation used by the storage cap
  (`len(json.dumps(data, indent=2).encode("utf-8"))`) is modelled by
  `serializedLen`, which computes the exact byte length of that string for
  the task-store data model (all output is ASCII under `ensure_ascii=True`,
  so bytes coincide with characters; `escLen` counts the escaped bytes of
  one character).
* Reading the store back from disk (`json.load`) is modelled as the identity
  on the persisted store value: the JSON round trip of the data model is
  lossless and is not itself under test.
* Fallible upstream interactions (network, `json.loads`, attribute errors)
  are modelled with `Except`; a raised exception is an `Except.error`.
-/

namespace DayPlanner

/-! ## Association lists (Python dict model) -/

/-- `d.get(k)` on a Python dict modelled as an insertion-ordered list. -/
def lookupA {α : Type} (k : String) : List (String × α) → Option α
  | [] => none
  | (k', v) :: rest => if k' = k then some v else lookupA k rest

/-- Replace the (first) entry with key `k` in place, keeping its position. -/
def replaceA {α : Type} (k : String) (v : α) : List (String × α) →
    List (String × α)
  | [] => []
  | p :: rest => if p.1 = k then (k, v) :: rest else p :: replaceA k v rest

/-- `d[k] = v`: replace in place when the key exists, else append. -/
def upsertA {α : Type} (k : String) (v : α) (l : List (String × α)) :
    List (String × α) :=
  if (lookupA k l).isSome then replaceA k v l else l ++ [(k, v)]

/-- `del d[k]` / `d.pop(k, None)`. -/
def eraseKey {α : Type} (k : String) (l : List (String × α)) :
    List (String × α) :=
  l.filter (fun p => !(p.1 == k))

theorem lookupA_replaceA_self {α : Type} (k : String) (v : α)
    (l : List (String × α)) (h : (lookupA k l).isSome) :
    lookupA k (replaceA k v l) = some v := by
  induction l with
  | nil => simp [lookupA] at h
  | cons p rest ih =>
    by_cases hk : p.1 = k
    · simp [replaceA, hk, lookupA]
    · rw [replaceA, if_neg hk, lookupA, if_neg hk]
      exact ih (by simpa [lookupA, hk] using h)

theorem lookupA_replaceA_ne {α : Type} (k k' : String) (v : α)
    (l : List (String × α)) (hne : k' ≠ k) :
    lookupA k' (replaceA k v l) = lookupA k' l := by
  induction l with
  | nil => simp [replaceA]
  | cons p rest ih =>
    by_cases hk : p.1 = k
    · rw [replaceA, if_pos hk, lookupA, lookupA, if_neg (Ne.symm hne),
        if_neg (by rw [hk]; exact fun hx => hne hx.symm)]
    · rw [replaceA, if_neg hk, lookupA, lookupA]
      by_cases hk2 : p.1 = k'
      · rw [if_pos hk2, if_pos hk2]
      · rw [if_neg hk2, if_neg hk2]; exact ih

theorem lookupA_append {α : Type} (k : String)
    (l l' : List (String × α)) :
    lookupA k (l ++ l') =
      match lookupA k l with
      | some v => some v
      | none => lookupA k l' := by
  induction l with
  | nil => simp [lookupA]
  | cons p rest ih =>
    by_cases hk : p.1 = k
    · simp [lookupA, hk]
    · simpa [lookupA, hk] using ih

theorem lookupA_upsertA_self {α : Type} (k : String) (v : α)
    (l : List (String × α)) : lookupA k (upsertA k v l) = some v := by
  unfold upsertA
  by_cases hs : (lookupA k l).isSome
  · rw [if_pos hs]
    exact lookupA_replaceA_self k v l hs
  · rw [if_neg hs, lookupA_append]
    cases h : lookupA k l with
    | none => simp [lookupA]
    | some w => simp [h] at hs

theorem lookupA_upsertA_ne {α : Type} (k k' : String) (v : α)
    (l : List (String × α)) (hne : k' ≠ k) :
    lookupA k' (upsertA k v l) = lookupA k' l := by
  unfold upsertA
  by_cases hs : (lookupA k l).isSome
  · rw [if_pos hs]
    exact lookupA_replaceA_ne k k' v l hne
  · rw [if_neg hs, lookupA_append]
    cases h : lookupA k' l with
    | none => simp [lookupA, Ne.symm hne]
    | some w => simp

theorem lookupA_eraseKey_self {α : Type} (k : String)
    (l : List (String × α)) : lookupA k (eraseKey k l) = none := by
  induction l with
  | nil => simp [eraseKey, lookupA]
  | cons p rest ih =>
    by_cases hk : p.1 = k
    · simpa [eraseKey, List.filter_cons, hk] using ih
    · simpa [eraseKey, List.filter_cons, hk, lookupA] using ih

theorem lookupA_none_of_eraseKey {α : Type} (k k' : String)
    (l : List (String × α)) (h : lookupA k l = none) :
    lookupA k (eraseKey k' l) = none := by
  induction l with
  | nil => simp [eraseKey, lookupA]
  | cons p rest ih =>
    by_cases hk : p.1 = k
    · simp [lookupA, hk] at h
    · have h' : lookupA k rest = none := by simpa [lookupA, hk] using h
      by_cases hk2 : p.1 = k'
      · simpa [eraseKey, List.filter_cons, hk2] using ih h'
      · simpa [eraseKey, List.filter_cons, hk2, lookupA, hk] using ih h'

/-! ## Task store (server.py lines 16-18, 237-258, 307-316, 336-358)

A task is the JSON object `{"text": ...}`; a day maps hour strings to tasks;
the store maps date strings to days.  `serializedLen` is the byte length of
`json.dumps(data, indent=2)` encoded as UTF-8 (`ensure_ascii=True` keeps the
output pure ASCII, so one escaped byte per counted unit). -/

structure Task where
  text : String
  deriving DecidableEq, Repr

abbrev DayTasks : Type := List (String × Task)

abbrev Store : Type := List (String × DayTasks)

def MAX_STORAGE_BYTES : Nat := 500 * 1024 * 1024

/-- Byte length of one character in the output of `json.dumps` with
`ensure_ascii=True`: `"` and `\` and the short control escapes take two
bytes, other control characters take a `\uXXXX` escape (six bytes),
printable ASCII takes one byte, other BMP characters take six bytes and
astral characters take a surrogate pair (twelve bytes). -/
def escLen (c : Char) : Nat :=
  if c = '"' ∨ c = '\\' then 2
  else if c.val = 8 ∨ c.val = 9 ∨ c.val = 10 ∨ c.val = 12 ∨ c.val = 13 then 2
  else if c.val < 32 then 6
  else if c.val < 127 then 1
  else if c.val < 65536 then 6
  else 12

/-- Byte length of a JSON string literal for `s` (quotes included). -/
def strLitLen (s : String) : Nat := 2 + (s.data.map escLen).sum

/-- Byte length of `json.dumps` of one task object, emitted at indent
level `lvl` (its opening brace sits at the end of the parent line, its
closing brace is indented by `lvl`). -/
def dumpTaskLen (lvl : Nat) (t : Task) : Nat :=
  2 + (lvl + 2) + 6 + 2 + strLitLen t.text + 1 + lvl + 1

/-- Byte length of `json.dumps` of one day object at indent level `lvl`. -/
def dumpDayLen (lvl : Nat) (d : DayTasks) : Nat :=
  match d with
  | [] => 2
  | _ =>
    let es := d.map (fun p => (lvl + 2) + strLitLen p.1 + 2 +
      dumpTaskLen (lvl + 2) p.2)
    2 + es.sum + 2 * (es.length - 1) + 1 + lvl + 1

/-- Byte length of `json.dumps(data, indent=2).encode("utf-8")` for the
whole store (the quantity the storage cap is checked against). -/
def serializedLen (s : Store) : Nat :=
  match s with
  | [] => 2
  | _ =>
    let es := s.map (fun p => 2 + strLitLen p.1 + 2 + dumpDayLen 2 p.2)
    2 + es.sum + 2 * (es.length - 1) + 1 + 1

/-- Python string `<`: code-point lexicographic comparison. -/
def lexLt : List Char → List Char → Bool
  | [], [] => false
  | [], _ :: _ => true
  | _ :: _, [] => false
  | a :: as, b :: bs =>
    if a.val < b.val then true
    else if b.val < a.val then false
    else lexLt as bs

/-- Python `min(a, b)` on strings (keeps the first of equals). -/
def pyMinStr (a b : String) : String := if lexLt b.data a.data then b else a

/-- `min(data.keys())` — the smallest key in Python string order. -/
def minKey (s : Store) : String :=
  match s.map Prod.fst with
  | [] => ""
  | k :: ks => ks.foldl pyMinStr k

/-- One-at-a-time eviction loop of `save_all_tasks` (lines 251-256): while
the serialized store exceeds the cap and is non-empty, drop the minimal
date and re-serialize.  Each pass removes one entry, so `s.length` passes
always suffice; `evictAux` runs the loop with that much fuel. -/
def evictAux : Nat → Store → Store
  | 0, s => s
  | fuel + 1, s =>
    if MAX_STORAGE_BYTES < serializedLen s ∧ s ≠ [] then
      evictAux fuel (eraseKey (minKey s) s)
    else s

/-- `save_all_tasks(data)` (lines 248-258): the store value that ends up
persisted in `tasks.json` after cap enforcement.  The file write itself is
modelled separately (see `saveFileStates`). -/
def save_all_tasks (s : Store) : Store := evictAux s.length s

/-- `load_all_tasks()` (lines 237-245) reads back the persisted store; the
JSON round trip is lossless, so on the persisted value it is the
identity.  A missing or corrupt file is the empty store. -/
def load_all_tasks (file : Option Store) : Store := file.getD []

/-- Store effect of `DayPlannerHandler._put_tasks` (lines 346-351): an
empty body removes the date, otherwise the whole day is replaced; then
`save_all_tasks` runs.  Returns the newly persisted store. -/
def put_tasks (date : String) (tasks : DayTasks) (s : Store) : Store :=
  save_all_tasks (if tasks ≠ [] then upsertA date tasks s else eraseKey date s)

/-- Store effect of `DayPlannerHandler._get_tasks` (lines 307-310):
`all_tasks.get(date_str, {})`. -/
def get_tasks (date : String) (s : Store) : DayTasks :=
  (lookupA date s).getD []

theorem evictAux_nil (fuel : Nat) : evictAux fuel [] = [] := by
  cases fuel with
  | zero => rfl
  | succ n => simp [evictAux]

theorem evictAux_of_le (fuel : Nat) (s : Store)
    (h : ¬ MAX_STORAGE_BYTES < serializedLen s) : evictAux fuel s = s := by
  cases fuel with
  | zero => rfl
  | succ n => rw [evictAux, if_neg (by intro hx; exact h hx.1)]

theorem pyMinStr_choice (a b : String) :
    pyMinStr a b = a ∨ pyMinStr a b = b := by
  unfold pyMinStr
  split
  · exact Or.inr rfl
  · exact Or.inl rfl

theorem foldl_min_mem (ks : List String) (k : String) :
    ks.foldl pyMinStr k ∈ k :: ks := by
  induction ks generalizing k with
  | nil => simp
  | cons a as ih =>
    rw [List.foldl_cons]
    rcases pyMinStr_choice k a with hc | hc <;> rw [hc]
    · rcases List.mem_cons.mp (ih k) with h1 | h1
      · simp [h1]
      · simp [List.mem_cons, h1]
    · rcases List.mem_cons.mp (ih a) with h1 | h1
      · simp [h1]
      · simp [List.mem_cons, h1]

theorem minKey_mem (s : Store) (h : s ≠ []) :
    minKey s ∈ s.map Prod.fst := by
  unfold minKey
  cases s with
  | nil => exact absurd rfl h
  | cons p rest => exact foldl_min_mem (rest.map Prod.fst) p.1

theorem eraseKey_length_lt {α : Type} (k : String)
    (l : List (String × α)) (h : k ∈ l.map Prod.fst) :
    (eraseKey k l).length < l.length := by
  induction l with
  | nil => simp at h
  | cons p rest ih =>
    have hle : (eraseKey k rest).length ≤ rest.length :=
      List.length_filter_le _ rest
    by_cases hk : p.1 = k
    · have hbe : (!(p.1 == k)) = false := by simp [hk]
      simp only [eraseKey] at hle
      simp only [eraseKey, List.filter_cons, hbe, Bool.false_eq_true,
        if_false, List.length_cons]
      omega
    · have h' : k ∈ rest.map Prod.fst := by
        rcases List.mem_map.mp h with ⟨q, hq, hq1⟩
        rcases List.mem_cons.mp hq with he | he
        · exact absurd (he ▸ hq1) hk
        · exact List.mem_map.mpr ⟨q, he, hq1⟩
      have hlt := ih h'
      have hbe : (!(p.1 == k)) = true := by simp [hk]
      simp only [eraseKey] at hlt
      simp only [eraseKey, List.filter_cons, hbe, if_true, List.length_cons]
      omega

theorem evictAux_bounded (fuel : Nat) (s : Store) (h : s.length ≤ fuel) :
    serializedLen (evictAux fuel s) ≤ MAX_STORAGE_BYTES ∨
      evictAux fuel s = [] := by
  induction fuel generalizing s with
  | zero =>
    have : s = [] := List.length_eq_zero.mp (Nat.le_zero.mp h)
    subst this
    exact Or.inr rfl
  | succ n ih =>
    rw [evictAux]
    by_cases hc : MAX_STORAGE_BYTES < serializedLen s ∧ s ≠ []
    · rw [if_pos hc]
      apply ih
      have hm := minKey_mem s hc.2
      have := eraseKey_length_lt (minKey s) s hm
      omega
    · rw [if_neg hc]
      rcases not_and_or.mp hc with hx | hx
      · exact Or.inl (Nat.not_lt.mp hx)
      · exact Or.inr (not_not.mp hx)

theorem evictAux_fuel_irrel (f1 f2 : Nat) (s : Store)
    (h1 : s.length ≤ f1) (h2 : s.length ≤ f2) :
    evictAux f1 s = evictAux f2 s := by
  induction f1 generalizing f2 s with
  | zero =>
    have : s = [] := List.length_eq_zero.mp (Nat.le_zero.mp h1)
    subst this
    rw [evictAux_nil, evictAux_nil]
  | succ n ih =>
    cases f2 with
    | zero =>
      have : s = [] := List.length_eq_zero.mp (Nat.le_zero.mp h2)
      subst this
      rw [evictAux_nil, evictAux_nil]
    | succ m =>
      rw [evictAux, evictAux]
      by_cases hc : MAX_STORAGE_BYTES < serializedLen s ∧ s ≠ []
      · rw [if_pos hc, if_pos hc]
        have hm := minKey_mem s hc.2
        have hlt := eraseKey_length_lt (minKey s) s hm
        exact ih _ _ (by omega) (by omega)
      · rw [if_neg hc, if_neg hc]

theorem save_all_tasks_of_le (s : Store)
    (h : serializedLen s ≤ MAX_STORAGE_BYTES) : save_all_tasks s = s :=
  evictAux_of_le s.length s (Nat.not_lt.mpr h)

theorem lookupA_none_evictAux (d : String) (fuel : Nat) (s : Store)
    (h : lookupA d s = none) : lookupA d (evictAux fuel s) = none := by
  induction fuel generalizing s with
  | zero => exact h
  | succ n ih =>
    rw [evictAux]
    by_cases hc : MAX_STORAGE_BYTES < serializedLen s ∧ s ≠ []
    · rw [if_pos hc]
      exact ih _ (lookupA_none_of_eraseKey d (minKey s) s h)
    · rw [if_neg hc]; exact h

/-- C2: after every write the serialized store fits in the 500 MiB cap or
the store is empty; enforcement never touches a store already within the
cap, and otherwise proceeds by removing exactly the minimal date, one date
at a time. -/
theorem save_all_tasks_cap (s : Store) :
    (serializedLen (save_all_tasks s) ≤ MAX_STORAGE_BYTES ∨
      save_all_tasks s = []) ∧
    save_all_tasks s =
      (if serializedLen s ≤ MAX_STORAGE_BYTES ∨ s = [] then s
       else save_all_tasks (eraseKey (minKey s) s)) := by
  constructor
  · exact evictAux_bounded s.length s (Nat.le_refl _)
  · by_cases hc : serializedLen s ≤ MAX_STORAGE_BYTES ∨ s = []
    · rw [if_pos hc]
      rcases hc with hc | hc
      · exact save_all_tasks_of_le s hc
      · subst hc
        exact evictAux_nil _
    · rw [if_neg hc]
      push_neg at hc
      obtain ⟨hgt', hne⟩ := hc
      unfold save_all_tasks
      cases hs : s with
      | nil => exact absurd hs hne
      | cons p rest =>
        rw [← hs]
        have hlen : s.length = rest.length + 1 := by rw [hs]; rfl
        rw [hlen, evictAux, if_pos ⟨hgt', hne⟩]
        have hm := minKey_mem s hne
        have hlt := eraseKey_length_lt (minKey s) s hm
        exact evictAux_fuel_irrel _ _ _ (by omega) (by omega)

/-- C1 (amended): read-after-write holds unconditionally for an empty `T`
(the date is deleted), and for a non-empty `T` provided the store after
the write fits in the storage cap — otherwise cap enforcement may evict
the date that was just written (see `c1_counterexample`). -/
theorem read_after_write (d : String) (T : DayTasks) (s : Store) :
    (T = [] → get_tasks d (put_tasks d T s) = []) ∧
    (T ≠ [] → serializedLen (upsertA d T s) ≤ MAX_STORAGE_BYTES →
      get_tasks d (put_tasks d T s) = T) := by
  constructor
  · intro hT
    subst hT
    unfold put_tasks get_tasks
    rw [if_neg (by simp)]
    unfold save_all_tasks
    rw [lookupA_none_evictAux d _ _ (lookupA_eraseKey_self d s)]
    rfl
  · intro hT hcap
    unfold put_tasks get_tasks
    rw [if_pos hT, save_all_tasks_of_le _ hcap, lookupA_upsertA_self]
    rfl

/-- Witness for `read_after_write`: both branches at concrete inputs. -/
theorem read_after_write_witness :
    get_tasks "2025-01-02" (put_tasks "2025-01-02" [] [("2025-01-02",
      [("3", ⟨"x"⟩)])]) = [] ∧
    get_tasks "2025-01-01" (put_tasks "2025-01-01" [("1", ⟨"hi"⟩)] []) =
      [("1", ⟨"hi"⟩)] :=
  ⟨(read_after_write "2025-01-02" [] [("2025-01-02", [("3", ⟨"x"⟩)])]).1
      rfl,
    (read_after_write "2025-01-01" [("1", ⟨"hi"⟩)] []).2 (by decide)
      (by decide)⟩

/-! Counterexample data for C1: a prior store holding one huge day at the
later date `2099-01-01`, sized so that the store alone is exactly at the
cap and any further write pushes it over.  Writing a small task map to the
earlier date `2000-01-01` then triggers eviction, and the minimal key is
the date just written, so the write is lost. -/

def mkAs (n : Nat) : String := String.mk (List.replicate n 'a')

def storeBig (t : String) : Store := [("2099-01-01", [("0", ⟨t⟩)])]

def smallDay : DayTasks := [("1", ⟨"hi"⟩)]

theorem strLitLen_mkAs (n : Nat) : strLitLen (mkAs n) = 2 + n := by
  have hd : (mkAs n).data = List.replicate n 'a' := rfl
  have he : escLen 'a' = 1 := by decide
  rw [strLitLen, hd, List.map_replicate, he, List.sum_replicate, smul_eq_mul,
    mul_one]

theorem serializedLen_storeBig (t : String) :
    serializedLen (storeBig t) = 57 + strLitLen t := by
  have h1 : strLitLen "2099-01-01" = 12 := by decide
  have h2 : strLitLen "0" = 3 := by decide
  simp only [serializedLen, storeBig, dumpDayLen, dumpTaskLen, List.map_cons,
    List.map_nil, List.sum_cons, List.sum_nil, List.length_cons,
    List.length_nil, h1, h2]
  omega

theorem serializedLen_storeBig_plus (t : String) :
    serializedLen (storeBig t ++ [("2000-01-01", smallDay)]) =
      116 + strLitLen t := by
  have h1 : strLitLen "2099-01-01" = 12 := by decide
  have h2 : strLitLen "0" = 3 := by decide
  have h3 : strLitLen "2000-01-01" = 12 := by decide
  have h4 : strLitLen "1" = 3 := by decide
  have h5 : strLitLen "hi" = 4 := by decide
  simp only [serializedLen, storeBig, smallDay, dumpDayLen, dumpTaskLen,
    List.cons_append, List.nil_append, List.map_cons, List.map_nil,
    List.sum_cons, List.sum_nil, List.length_cons, List.length_nil,
    h1, h2, h3, h4, h5]
  omega

/-- C1 counterexample: with the cap-filling prior store, `write_day` of a
non-empty map to `2000-01-01` followed by `read_day` returns the empty
map, because cap enforcement evicts the minimal date — the one just
written. -/
theorem c1_counterexample :
    get_tasks "2000-01-01"
        (put_tasks "2000-01-01" smallDay (storeBig (mkAs 524287941))) = [] ∧
      smallDay ≠ [] := by
  constructor
  · unfold put_tasks
    rw [if_pos (by decide)]
    have hlk : lookupA "2000-01-01" (storeBig (mkAs 524287941)) = none := by
      simp [storeBig, lookupA]
    rw [upsertA, hlk]
    simp only [Option.isSome_none, Bool.false_eq_true, if_false]
    set big := mkAs 524287941 with hbig
    have hlen2 : (storeBig big ++ [("2000-01-01", smallDay)]).length = 2 := by
      simp [storeBig]
    unfold save_all_tasks
    rw [hlen2, evictAux, if_pos (by
      constructor
      · rw [serializedLen_storeBig_plus, strLitLen_mkAs]
        norm_num [MAX_STORAGE_BYTES]
      · simp [storeBig])]
    have hmin : minKey (storeBig big ++ [("2000-01-01", smallDay)]) =
        "2000-01-01" := by
      simp only [minKey, storeBig, List.cons_append, List.nil_append,
        List.map_cons, List.map_nil, List.foldl_cons, List.foldl_nil]
      decide
    rw [hmin]
    have herase : eraseKey "2000-01-01"
        (storeBig big ++ [("2000-01-01", smallDay)]) = storeBig big := by
      simp [eraseKey, storeBig, List.filter_cons]
    rw [herase, evictAux, if_neg (by
      rw [serializedLen_storeBig, strLitLen_mkAs]
      intro h
      exact absurd h.1 (by norm_num [MAX_STORAGE_BYTES]))]
    unfold get_tasks
    rw [hlk]
    rfl
  · decide

/-! ## Persistence and concurrency of the store (C8, C9)

`save_all_tasks` persists with `open(DATA_FILE, "w")` followed by
`f.write(content)` (lines 257-258).  CPython's `open(..., "w")` truncates
the file immediately, so the sequence of file contents visible to a crash
(or to a reader not holding the process's `file_lock`) is: the old
content, the empty file after truncation, then the new content (with
arbitrary prefixes of it while the write is in flight; the truncated state
alone already refutes atomicity). -/

/-- Observable contents of `tasks.json` over the course of one
`save_all_tasks` write: before, after the truncating `open`, after the
`write`. -/
def saveFileStates (old content : String) : List String :=
  [old, "", content]

/-- C8: the persist step is not an atomic replacement — between the old
and the new content the backing file passes through a state that is
neither, so a crash mid-write loses the store.  The spec requires
write-to-temp-then-rename; the code truncates in place. -/
theorem save_not_atomic (old content : String) (hold : old ≠ "")
    (hnew : content ≠ "") :
    ∃ s ∈ saveFileStates old content, s ≠ old ∧ s ≠ content :=
  ⟨"", by simp [saveFileStates], fun h => hold h.symm, fun h => hnew h.symm⟩

/-- Witness for `save_not_atomic` at a concrete old/new content pair. -/
theorem save_not_atomic_witness :
    ∃ s ∈ saveFileStates "x" "y", s ≠ "x" ∧ s ≠ "y" :=
  save_not_atomic "x" "y" (by decide) (by decide)

/-- The store update performed between load and save by `_put_tasks`
(lines 347-350). -/
def putModify (date : String) (tasks : DayTasks) (snapshot : Store) :
    Store :=
  if tasks ≠ [] then upsertA date tasks snapshot else eraseKey date snapshot

/-- Interleaved execution of two concurrent PUTs.  `file_lock` is held
separately inside `load_all_tasks` and inside `save_all_tasks`, but not
across the whole load-modify-save cycle of `_put_tasks`, so the schedule
load₁, load₂, save₁, save₂ is possible: both handlers snapshot the same
store `s0`, and the second save overwrites the first. -/
def interleavedPuts (s0 : Store) (d1 : String) (T1 : DayTasks)
    (d2 : String) (T2 : DayTasks) : Store :=
  let snap1 := s0
  let snap2 := s0
  let _file1 := save_all_tasks (putModify d1 T1 snap1)
  let file2 := save_all_tasks (putModify d2 T2 snap2)
  file2

/-- C9: the load-modify-evict-persist cycle of a PUT is not one mutual
exclusion region.  Under the schedule load₁, load₂, save₁, save₂ the
update to `2025-01-01` is lost even though the two PUTs touch different
dates, whereas the serialized execution keeps both. -/
theorem put_lost_update :
    get_tasks "2025-01-01"
        (interleavedPuts [] "2025-01-01" [("1", ⟨"a"⟩)]
          "2025-01-02" [("2", ⟨"b"⟩)]) = [] ∧
      get_tasks "2025-01-01"
        (put_tasks "2025-01-02" [("2", ⟨"b"⟩)]
          (put_tasks "2025-01-01" [("1", ⟨"a"⟩)] [])) =
        [("1", ⟨"a"⟩)] := by
  constructor
  · decide
  · decide

/-! ## Reminder scheduler (server.py lines 233-234, 380-408)

One pass of the `while True` body of `reminder_loop` is modelled by
`tick`, parameterised by the wall-clock date string and hour.  The email
send is the notification capability; a tick returns the list of capability
invocations `(task_text, hour, date)` it performs, in order.  `int(...)`
on an hour key is `pyInt` (sign and decimal digits, surrounding
whitespace stripped; exotic accepted forms such as digit underscores are
not exercised here); a key that fails to parse raises `ValueError`, which
the loop's outer `except` catches, aborting the remainder of that tick's
iteration. -/

def isPySpace (c : Char) : Bool :=
  c = ' ' ∨ c = '\t' ∨ c = '\n' ∨ c = '\r' ∨ c.val = 11 ∨ c.val = 12

/-- Python `int(s)` for sign-and-digits strings. -/
def pyInt (s : String) : Option Int :=
  let cs := ((s.data.dropWhile isPySpace).reverse.dropWhile
    isPySpace).reverse
  let core : List Char × Int :=
    match cs with
    | '+' :: rest => (rest, 1)
    | '-' :: rest => (rest, -1)
    | _ => (cs, 1)
  if core.1 ≠ [] ∧ core.1.all (fun c => c.isDigit) then
    some (core.2 *
      (core.1.foldl (fun acc c => acc * 10 + (c.toNat - 48)) 0 : Nat))
  else none

def listStarts : List Char → List Char → Bool
  | [], _ => true
  | _ :: _, [] => false
  | a :: as, b :: bs => a == b && listStarts as bs

/-- Python `k.startswith(pre)`. -/
def pyStarts (pre k : String) : Bool := listStarts pre.data k.data

/-- One capability invocation: `(task_text, hour, date)` as passed to
`send_reminder_email`. -/
abbrev Notif : Type := String × Int × String

/-- The dedup-set key `f"{today_str}-{hour_str}"` of a notification,
reconstructed from its date and hour. -/
def keyN (n : Notif) : String := n.2.2 ++ "-" ++ toString n.2.1

/-- Scheduler state: the `sent_reminders` set (as a list) and
`last_cleanup_date`. -/
structure SchedSt where
  sent : List String
  lastCleanup : Option String
  deriving DecidableEq, Repr

/-- The `for hour_str, task in day_tasks.items()` loop (lines 399-404):
keys equal to the target hour whose dedup key is fresh are added to the
sent set *before* the capability is invoked.  A key that does not parse
as an int raises, which aborts the rest of the iteration (outer
`except`). -/
def goTick (today : String) (target : Int) :
    List (String × Task) → List String → List Notif →
      List String × List Notif
  | [], sent, acc => (sent, acc)
  | (hs, task) :: rest, sent, acc =>
    match pyInt hs with
    | none => (sent, acc)
    | some v =>
      if v = target then
        if (today ++ "-" ++ hs) ∈ sent then goTick today target rest sent acc
        else goTick today target rest ((today ++ "-" ++ hs) :: sent)
          (acc ++ [(task.text, v, today)])
      else goTick today target rest sent acc

/-- One iteration of `reminder_loop` (lines 384-404) at local date
`today` and local hour `curHour`, reading the store `s`. -/
def tick (today : String) (curHour : Nat) (s : Store) (st : SchedSt) :
    SchedSt × List Notif :=
  let sent0 := if st.lastCleanup = some today then st.sent
    else st.sent.filter (fun k => pyStarts today k)
  if curHour + 1 ≤ 23 then
    let dayTasks := (lookupA today s).getD []
    let r := goTick today ((curHour : Int) + 1) dayTasks sent0 []
    (⟨r.1, some today⟩, r.2)
  else (⟨sent0, some today⟩, [])

/-- A run of scheduler iterations all observing the same local date
(each pair is the hour and the store loaded at that iteration). -/
def runSameDay (today : String) :
    List (Nat × Store) → SchedSt → SchedSt × List Notif
  | [], st => (st, [])
  | (h, s) :: rest, st =>
    let r1 := tick today h s st
    let r2 := runSameDay today rest r1.1
    (r2.1, r1.2 ++ r2.2)

/-- A day's task map has canonical hour keys: each key is the decimal
rendering of its own `int(...)` value (the data model's `"0"..\"23\"`
keys are of this form, and dict keys are unique strings). -/
def canonicalDayB (l : DayTasks) : Bool :=
  l.all (fun p =>
    match pyInt p.1 with
    | some v => toString v == p.1
    | none => false)

theorem listStarts_append (a b : List Char) :
    listStarts a (a ++ b) = true := by
  induction a with
  | nil => rfl
  | cons c cs ih => simpa [listStarts] using ih

theorem pyStarts_append (a b : String) : pyStarts a (a ++ b) = true := by
  rw [pyStarts, String.data_append]
  exact listStarts_append a.data b.data

theorem goTick_acc (today : String) (target : Int)
    (l : List (String × Task)) (sent : List String) (acc : List Notif) :
    goTick today target l sent acc =
      ((goTick today target l sent []).1,
        acc ++ (goTick today target l sent []).2) := by
  induction l generalizing sent acc with
  | nil => simp [goTick]
  | cons p rest ih =>
    obtain ⟨hs, task⟩ := p
    rw [goTick, goTick]
    cases hp : pyInt hs with
    | none => simp
    | some v =>
      dsimp only
      by_cases hv : v = target
      · rw [if_pos hv, if_pos hv]
        by_cases hk : (today ++ "-" ++ hs) ∈ sent
        · rw [if_pos hk, if_pos hk]; exact ih sent acc
        · rw [if_neg hk, if_neg hk]
          rw [ih _ (acc ++ [(task.text, v, today)]),
            ih _ ([] ++ [(task.text, v, today)])]
          simp
      · rw [if_neg hv, if_neg hv]; exact ih sent acc

/-- Combined specification of one pass over the day's items: the sent set
only grows; every emitted notification is dated `today`, its dedup key
was fresh before the pass, is in the sent set after it, and starts with
`today`; and (for canonical hour keys) the emitted dedup keys are
pairwise distinct. -/
theorem goTick_spec (today : String) (target : Int) :
    ∀ (l : List (String × Task)) (sent : List String),
    canonicalDayB l = true →
    (∀ k ∈ sent, k ∈ (goTick today target l sent []).1) ∧
    (∀ n ∈ (goTick today target l sent []).2,
      n.2.2 = today ∧ keyN n ∈ (goTick today target l sent []).1 ∧
        keyN n ∉ sent ∧ pyStarts today (keyN n) = true) ∧
    ((goTick today target l sent []).2.map keyN).Nodup := by
  intro l
  induction l with
  | nil =>
    intro sent _
    refine ⟨fun k hk => hk, fun n hn => absurd hn (by simp [goTick]), ?_⟩
    simp [goTick]
  | cons p rest ih =>
    intro sent hcanon
    obtain ⟨hs, task⟩ := p
    rw [canonicalDayB, List.all_cons] at hcanon
    have hhead : (match pyInt hs with
        | some w => toString w == hs
        | none => false) = true :=
      (Bool.and_eq_true _ _).mp hcanon |>.1
    have htail : canonicalDayB rest = true :=
      (Bool.and_eq_true _ _).mp hcanon |>.2
    rw [goTick]
    cases hp : pyInt hs with
    | none => rw [hp] at hhead; exact absurd hhead (by simp)
    | some v =>
      rw [hp] at hhead
      have hcan : toString v = hs := by
        simpa using hhead
      dsimp only
      by_cases hv : v = target
      · rw [if_pos hv]
        by_cases hk : (today ++ "-" ++ hs) ∈ sent
        · rw [if_pos hk]
          exact ih sent htail
        · rw [if_neg hk]
          rw [goTick_acc]
          obtain ⟨ihm, ihn, ihd⟩ :=
            ih ((today ++ "-" ++ hs) :: sent) htail
          have hkeyhead : keyN ((task.text, v, today) : Notif) =
              today ++ "-" ++ hs := by
            rw [keyN]
            show today ++ "-" ++ toString v = today ++ "-" ++ hs
            rw [hcan]
          refine ⟨?_, ?_, ?_⟩
          · intro k hksent
            exact ihm k (List.mem_cons_of_mem _ hksent)
          · intro n hn
            simp only [List.nil_append, List.singleton_append,
              List.mem_cons] at hn
            rcases hn with hn | hn
            · subst hn
              refine ⟨rfl, ?_, ?_, ?_⟩
              · rw [hkeyhead]
                exact ihm _ (List.mem_cons_self _ _)
              · rw [hkeyhead]; exact hk
              · rw [hkeyhead, String.append_assoc]
                exact pyStarts_append today ("-" ++ hs)
            · obtain ⟨hd, hmem, hfresh, hpre⟩ := ihn n hn
              refine ⟨hd, hmem, fun hx => hfresh ?_, hpre⟩
              exact List.mem_cons_of_mem _ hx
          · simp only [List.nil_append, List.map_cons]
            refine List.Nodup.cons ?_ ihd
            intro hmem
            rcases List.mem_map.mp hmem with ⟨n, hn, hkey⟩
            obtain ⟨-, -, hfresh, -⟩ := ihn n hn
            rw [hkey, hkeyhead] at hfresh
            exact hfresh (List.mem_cons_self _ _)
      · rw [if_neg hv]
        exact ih sent htail

/-- One tick: today-prefixed keys of the incoming sent set survive; every
notification is dated `today` with a key that was not previously sent, is
recorded afterwards, and is today-prefixed; keys are pairwise distinct;
and the cleanup marker is set. -/
theorem tick_spec (today : String) (curHour : Nat) (s : Store)
    (st : SchedSt)
    (hcanon : canonicalDayB ((lookupA today s).getD []) = true) :
    (∀ k ∈ st.sent, pyStarts today k = true →
      k ∈ (tick today curHour s st).1.sent) ∧
    (∀ n ∈ (tick today curHour s st).2,
      n.2.2 = today ∧ keyN n ∈ (tick today curHour s st).1.sent ∧
        keyN n ∉ st.sent ∧ pyStarts today (keyN n) = true) ∧
    (((tick today curHour s st).2.map keyN).Nodup) ∧
    (tick today curHour s st).1.lastCleanup = some today := by
  have hsub : ∀ k ∈ st.sent, pyStarts today k = true →
      k ∈ (if st.lastCleanup = some today then st.sent
        else st.sent.filter (fun k => pyStarts today k)) := by
    intro k hk hpre
    by_cases hc : st.lastCleanup = some today
    · rw [if_pos hc]; exact hk
    · rw [if_neg hc]
      exact List.mem_filter.mpr ⟨hk, hpre⟩
  have hsub2 : ∀ k, k ∈ (if st.lastCleanup = some today then st.sent
      else st.sent.filter (fun k => pyStarts today k)) → k ∈ st.sent := by
    intro k hk
    by_cases hc : st.lastCleanup = some today
    · rw [if_pos hc] at hk; exact hk
    · rw [if_neg hc] at hk
      exact (List.mem_filter.mp hk).1
  rw [tick]
  by_cases hh : curHour + 1 ≤ 23
  · rw [if_pos hh]
    obtain ⟨gm, gn, gd⟩ := goTick_spec today ((curHour : Int) + 1)
      ((lookupA today s).getD []) _ hcanon
    refine ⟨fun k hk hpre => gm k (hsub k hk hpre), ?_, gd, rfl⟩
    intro n hn
    obtain ⟨hd, hmem, hfresh, hpre⟩ := gn n hn
    exact ⟨hd, hmem, fun hx => hfresh (hsub _ hx hpre), hpre⟩
  · rw [if_neg hh]
    exact ⟨fun k hk hpre => hsub k hk hpre,
      fun n hn => absurd hn (by simp), by simp, rfl⟩

/-- Whole-run specification over any number of same-day iterations. -/
theorem runSameDay_spec (today : String) :
    ∀ (ticks : List (Nat × Store)) (st : SchedSt),
    (∀ p ∈ ticks, canonicalDayB ((lookupA today p.2).getD []) = true) →
    (∀ k ∈ st.sent, pyStarts today k = true →
      k ∈ (runSameDay today ticks st).1.sent) ∧
    (∀ n ∈ (runSameDay today ticks st).2,
      n.2.2 = today ∧ keyN n ∈ (runSameDay today ticks st).1.sent ∧
        keyN n ∉ st.sent ∧ pyStarts today (keyN n) = true) ∧
    ((runSameDay today ticks st).2.map keyN).Nodup := by
  intro ticks
  induction ticks with
  | nil =>
    intro st _
    exact ⟨fun k hk _ => hk, fun n hn => absurd hn (by simp [runSameDay]),
      by simp [runSameDay]⟩
  | cons p rest ih =>
    intro st hcanon
    obtain ⟨h, s⟩ := p
    have hc1 := hcanon (h, s) (List.mem_cons_self _ _)
    have hcr : ∀ q ∈ rest, canonicalDayB ((lookupA today q.2).getD []) =
        true := fun q hq => hcanon q (List.mem_cons_of_mem _ hq)
    obtain ⟨t1m, t1n, t1d, _⟩ := tick_spec today h s st hc1
    obtain ⟨rm, rn, rd⟩ := ih (tick today h s st).1 hcr
    rw [runSameDay]
    refine ⟨?_, ?_, ?_⟩
    · intro k hk hpre
      exact rm k (t1m k hk hpre) hpre
    · intro n hn
      simp only [List.mem_append] at hn
      rcases hn with hn | hn
      · obtain ⟨hd, hmem, hfresh, hpre⟩ := t1n n hn
        exact ⟨hd, rm _ hmem hpre, hfresh, hpre⟩
      · obtain ⟨hd, hmem, hfresh, hpre⟩ := rn n hn
        refine ⟨hd, hmem, fun hx => hfresh (t1m _ hx hpre), hpre⟩
    · rw [List.map_append]
      rw [List.nodup_append]
      refine ⟨t1d, rd, ?_⟩
      intro k hk1 hk2
      rcases List.mem_map.mp hk1 with ⟨n1, hn1, hkey1⟩
      rcases List.mem_map.mp hk2 with ⟨n2, hn2, hkey2⟩
      obtain ⟨-, hmem1, -, -⟩ := t1n n1 hn1
      obtain ⟨-, -, hfresh2, -⟩ := rn n2 hn2
      rw [hkey1] at hmem1
      rw [hkey2] at hfresh2
      exact hfresh2 hmem1

/-- C3: over any same-day run of scheduler ticks (with the data model's
canonical hour keys), the notification capability fires at most once per
task-hour: the emitted hours are pairwise distinct, a task-hour whose
dedup key is already in the sent set is never re-notified, and every
emitted task-hour's key is recorded in the sent set afterwards (the key
is added before the capability is invoked, so a slow or failing send
cannot double-fire). -/
theorem reminder_at_most_once (today : String)
    (ticks : List (Nat × Store)) (st0 : SchedSt)
    (hcanon : ∀ p ∈ ticks,
      canonicalDayB ((lookupA today p.2).getD []) = true) :
    ((runSameDay today ticks st0).2.map (fun n => n.2.1)).Nodup ∧
    (∀ n ∈ (runSameDay today ticks st0).2,
      (today ++ "-" ++ toString n.2.1) ∉ st0.sent ∧
      (today ++ "-" ++ toString n.2.1) ∈
        (runSameDay today ticks st0).1.sent) := by
  obtain ⟨rm, rn, rd⟩ := runSameDay_spec today ticks st0 hcanon
  constructor
  · have hmapeq : (runSameDay today ticks st0).2.map keyN =
        ((runSameDay today ticks st0).2.map (fun n => n.2.1)).map
          (fun h => today ++ "-" ++ toString h) := by
      rw [List.map_map]
      apply List.map_congr_left
      intro n hn
      obtain ⟨hd, -, -, -⟩ := rn n hn
      show keyN n = today ++ "-" ++ toString n.2.1
      rw [keyN, hd]
    rw [hmapeq] at rd
    exact rd.of_map
  · intro n hn
    obtain ⟨hd, hmem, hfresh, -⟩ := rn n hn
    have hk : keyN n = today ++ "-" ++ toString n.2.1 := by rw [keyN, hd]
    rw [hk] at hmem hfresh
    exact ⟨hfresh, hmem⟩

/-- Witness for `reminder_at_most_once`: two ticks at hour 8 observe the
same task at hour 9; with a prior sent key for hour 10 in the set. -/
theorem reminder_at_most_once_witness :
    ((runSameDay "2025-06-01"
        [(8, [("2025-06-01", [("9", ⟨"gym"⟩), ("10", ⟨"x"⟩)])]),
          (8, [("2025-06-01", [("9", ⟨"gym"⟩)])])]
        ⟨["2025-06-01-10"], none⟩).2.map (fun n => n.2.1)).Nodup ∧
    (∀ n ∈ (runSameDay "2025-06-01"
        [(8, [("2025-06-01", [("9", ⟨"gym"⟩), ("10", ⟨"x"⟩)])]),
          (8, [("2025-06-01", [("9", ⟨"gym"⟩)])])]
        ⟨["2025-06-01-10"], none⟩).2,
      ("2025-06-01" ++ "-" ++ toString n.2.1) ∉
        (⟨["2025-06-01-10"], none⟩ : SchedSt).sent ∧
      ("2025-06-01" ++ "-" ++ toString n.2.1) ∈
        (runSameDay "2025-06-01"
          [(8, [("2025-06-01", [("9", ⟨"gym"⟩), ("10", ⟨"x"⟩)])]),
            (8, [("2025-06-01", [("9", ⟨"gym"⟩)])])]
          ⟨["2025-06-01-10"], none⟩).1.sent) :=
  reminder_at_most_once "2025-06-01"
    [(8, [("2025-06-01", [("9", ⟨"gym"⟩), ("10", ⟨"x"⟩)])]),
      (8, [("2025-06-01", [("9", ⟨"gym"⟩)])])]
    ⟨["2025-06-01-10"], none⟩ (by decide)

theorem goTick_hour (today : String) (target : Int) :
    ∀ (l : List (String × Task)) (sent : List String) (acc : List Notif),
    ∀ n ∈ (goTick today target l sent acc).2, n ∈ acc ∨ n.2.1 = target := by
  intro l
  induction l with
  | nil => intro sent acc n hn; exact Or.inl hn
  | cons p rest ih =>
    intro sent acc n hn
    obtain ⟨hs, task⟩ := p
    rw [goTick] at hn
    revert hn
    cases hp : pyInt hs with
    | none => intro hn; exact Or.inl hn
    | some v =>
      dsimp only
      by_cases hv : v = target
      · rw [if_pos hv]
        by_cases hk : (today ++ "-" ++ hs) ∈ sent
        · rw [if_pos hk]
          intro hn
          exact ih sent acc n hn
        · rw [if_neg hk]
          intro hn
          rcases ih _ _ n hn with hacc | htg
          · rcases List.mem_append.mp hacc with h1 | h1
            · exact Or.inl h1
            · simp only [List.mem_singleton] at h1
              subst h1
              exact Or.inr hv
          · exact Or.inr htg
      · rw [if_neg hv]
        intro hn
        exact ih sent acc n hn

/-- C4: the target hour of a tick is `current_hour + 1`.  At
`current_hour = 23` the tick neither loads the store (its result does not
depend on the store at all) nor fires any reminder, and in general every
notification fired by a tick at hour `h` is for a task at hour `h + 1` —
so hour-23 tasks observed at hour 23 never fire. -/
theorem tick_hour_boundary (today : String) (st : SchedSt)
    (s s' : Store) (curHour : Nat) :
    tick today 23 s st = tick today 23 s' st ∧
    (tick today 23 s st).2 = [] ∧
    (∀ n ∈ (tick today curHour s st).2, n.2.1 = (curHour : Int) + 1) := by
  refine ⟨by simp [tick], by simp [tick], ?_⟩
  intro n hn
  rw [tick] at hn
  revert hn
  by_cases hh : curHour + 1 ≤ 23
  · rw [if_pos hh]
    intro hn
    rcases goTick_hour today ((curHour : Int) + 1) _ _ [] n hn with h | h
    · exact absurd h (List.not_mem_nil n)
    · exact h
  · rw [if_neg hh]
    intro hn
    exact absurd hn (List.not_mem_nil n)

/-- Witness for `tick_hour_boundary`: a tick at hour 23 with a task at
hour 9 fires nothing, and the notification fired at hour 8 for the same
task carries hour 9 = 8 + 1. -/
theorem tick_hour_boundary_witness :
    (tick "2025-06-01" 23 [("2025-06-01", [("9", ⟨"gym"⟩)])]
      ⟨[], none⟩).2 = [] ∧
    ((("gym", (9 : Int), "2025-06-01") : Notif)).2.1 = ((8 : Nat) : Int) + 1 :=
  ⟨(tick_hour_boundary "2025-06-01" ⟨[], none⟩
      [("2025-06-01", [("9", ⟨"gym"⟩)])] [] 8).2.1,
    (tick_hour_boundary "2025-06-01" ⟨[], none⟩
      [("2025-06-01", [("9", ⟨"gym"⟩)])] [] 8).2.2
      ("gym", (9 : Int), "2025-06-01") (by decide)⟩

/-! ## Weather forecast aggregation (server.py lines 72-231)

Forecast samples are exact rationals (Python's float arithmetic is
modelled by exact rational arithmetic): a sample is a fraction `PyF`
with a positive denominator, and the arithmetic the code performs
(sums, means, division by 22.5, comparisons, `round`) is implemented on
these fractions directly so that every value is kernel-computable.
`roundPy` is CPython's `round` (half to even); `fmtTenths` renders
`round(x, 1)` with one decimal.  `datetime.utcfromtimestamp(ts)` is
modelled by `civilFromDays`/`dateStrOf`/`hourOfTs` using floored
division, which is what CPython uses for negative timestamps as well;
`strftime("%Y-%m-%d")` zero-pads the year to four digits (all reachable
forecast years have four digits). -/

/-- An exact rational `n / d`; all constructions keep `d` positive. -/
structure PyF where
  n : Int
  d : Int
  deriving DecidableEq, Repr

def pofInt (i : Int) : PyF := ⟨i, 1⟩

/-- `a < b` (valid for positive denominators). -/
def pltb (a b : PyF) : Bool := decide (a.n * b.d < b.n * a.d)

def padd (a b : PyF) : PyF := ⟨a.n * b.d + b.n * a.d, a.d * b.d⟩

def psub (a b : PyF) : PyF := ⟨a.n * b.d - b.n * a.d, a.d * b.d⟩

def pmul (a b : PyF) : PyF := ⟨a.n * b.n, a.d * b.d⟩

/-- `a / b`, keeping the denominator positive (callers never divide by
a zero value). -/
def pdiv (a b : PyF) : PyF :=
  if b.n < 0 then ⟨-(a.n * b.d), -(a.d * b.n)⟩ else ⟨a.n * b.d, a.d * b.n⟩

def pabs (a : PyF) : PyF := ⟨(a.n.natAbs : Int), a.d⟩

def psum (l : List PyF) : PyF := l.foldl padd (pofInt 0)

/-- `max(a, x)` as Python's max scan updates: replace only on strictly
greater. -/
def pmax2 (a x : PyF) : PyF := if pltb a x then x else a

def pmin2 (a x : PyF) : PyF := if pltb x a then x else a

def pfloor (a : PyF) : Int := a.n.fdiv a.d

def pHalf : PyF := ⟨1, 2⟩

/-- CPython `round(q)`: nearest integer, ties to even. -/
def roundPy (q : PyF) : Int :=
  let f : Int := pfloor q
  let r : PyF := psub q (pofInt f)
  if pltb r pHalf then f
  else if pltb pHalf r then f + 1
  else if f % 2 = 0 then f else f + 1

/-- `str(round(x, 1))`: `m` is `round(x * 10)` in tenths. -/
def fmtTenths (m : ℤ) : String :=
  (if m < 0 then "-" else "") ++ toString (m.natAbs / 10) ++ "." ++
    toString (m.natAbs % 10)

def compassDirs : List String :=
  ["N", "NNE", "NE", "ENE", "E", "ESE", "SE", "SSE",
   "S", "SSW", "SW", "WSW", "W", "WNW", "NW", "NNW"]

/-- `_wind_dir_label` (lines 72-76). -/
def windDirLabel : Option PyF → String
  | none => ""
  | some deg =>
    compassDirs.getD ((roundPy (pdiv deg (PyF.mk 45 2))).emod 16).toNat ""

/-- `_cloud_desc` (lines 79-91). -/
def cloudDesc : Option PyF → String
  | none => ""
  | some p =>
    if pltb p (pofInt 10) then "Clear"
    else if pltb p (pofInt 30) then "Mostly clear"
    else if pltb p (pofInt 60) then "Partly cloudy"
    else if pltb p (pofInt 85) then "Mostly cloudy"
    else "Overcast"

/-- Days-since-epoch to proleptic Gregorian `(year, month, day)`
(the standard civil-from-days algorithm, as computed by
`datetime.utcfromtimestamp`). -/
def civilFromDays (z0 : Int) : Int × Nat × Nat :=
  let z := z0 + 719468
  let era : Int := z.fdiv 146097
  let doe : Nat := (z - era * 146097).toNat
  let yoe : Nat := (doe - doe / 1460 + doe / 36524 - doe / 146096) / 365
  let y : Int := (yoe : Int) + era * 400
  let doy : Nat := doe - (365 * yoe + yoe / 4 - yoe / 100)
  let mp : Nat := (5 * doy + 2) / 153
  let d : Nat := doy - (153 * mp + 2) / 5 + 1
  let m : Nat := if mp < 10 then mp + 3 else mp - 9
  (if m ≤ 2 then y + 1 else y, m, d)

def padNat (w n : Nat) : String :=
  let s := toString n
  String.mk (List.replicate (w - s.length) '0') ++ s

/-- `datetime.utcfromtimestamp(ts).strftime("%Y-%m-%d")`. -/
def dateStrOf (ts : Int) : String :=
  let c := civilFromDays (ts.fdiv 86400)
  (if c.1 < 0 then "-" ++ padNat 4 c.1.natAbs else padNat 4 c.1.toNat) ++
    "-" ++ padNat 2 c.2.1 ++ "-" ++ padNat 2 c.2.2

/-- `datetime.utcfromtimestamp(ts).hour`. -/
def hourOfTs (ts : Int) : Nat := (ts.emod 86400).toNat / 3600

/-- One accumulation bucket of the `daily` defaultdict (lines 136-137). -/
structure Bucket where
  temps : List PyF
  winds : List PyF
  gusts : List PyF
  rain : List PyF
  rh : List PyF
  wdir : List PyF
  cloud : List PyF
  hoursLocal : List Nat
  deriving DecidableEq, Repr

def emptyBucket : Bucket := ⟨[], [], [], [], [], [], [], []⟩

/-- `arr[i] if i < len(arr) else None`, with a null entry also `None`:
the sample of array `arr` at index `i` when present. -/
def presentAt (arr : List (Option PyF)) (i : Nat) : Option PyF :=
  match arr.get? i with
  | some (some v) => some v
  | _ => none

/-- The value appended for array `arr` at index `i`: present only when
the array reaches index `i` and the entry is not null
(`if i < len(arr) and arr[i] is not None`). -/
def entryOf (arr : List (Option PyF)) (i : Nat) : List PyF :=
  (presentAt arr i).toList

/-- Body of the grouping loop (lines 139-162) for one `(i, hr)` pair. -/
def stepB (initstamp tz : Int)
    (temps winds gusts rain rh wdir cloud : List (Option PyF))
    (acc : List (String × Bucket)) (p : Nat × Int) :
    List (String × Bucket) :=
  let localTs := initstamp + p.2 * 3600 + tz
  let key := dateStrOf localTs
  let b := (lookupA key acc).getD emptyBucket
  let b' : Bucket :=
    { temps := b.temps ++ entryOf temps p.1
      winds := b.winds ++ entryOf winds p.1
      gusts := b.gusts ++ entryOf gusts p.1
      rain := b.rain ++ entryOf rain p.1
      rh := b.rh ++ entryOf rh p.1
      wdir := b.wdir ++ entryOf wdir p.1
      cloud := b.cloud ++ entryOf cloud p.1
      hoursLocal := b.hoursLocal ++ [hourOfTs localTs] }
  upsertA key b' acc

/-- The `daily` defaultdict after the grouping loop. -/
def buildDaily (initstamp tz : Int) (hours : List Int)
    (temps winds gusts rain rh wdir cloud : List (Option PyF)) :
    List (String × Bucket) :=
  hours.enum.foldl (stepB initstamp tz temps winds gusts rain rh wdir cloud)
    []

/-- The midday scan (lines 207-211): index of the first local hour in
`[11, 14]`. -/
def middayIdx (hl : List Nat) : Option Nat :=
  hl.findIdx? (fun lh => decide (11 ≤ lh) && decide (lh ≤ 14))

/-- Python `max` / `min` of a non-empty list (0 on empty, unused). -/
def listMax : List PyF → PyF
  | [] => pofInt 0
  | x :: xs => xs.foldl pmax2 x

def listMin : List PyF → PyF
  | [] => pofInt 0
  | x :: xs => xs.foldl pmin2 x

/-- One value of `result["days"]` (lines 213-222). -/
structure DaySummary where
  high : Option String
  low : Option String
  wind_kmh : String
  gust_kmh : Option String
  wind_dir : String
  rain_mm : String
  humidity : Option String
  desc : String
  deriving DecidableEq, Repr

def summarize (b : Bucket) : DaySummary :=
  let mid := middayIdx b.hoursLocal
  { high := if b.temps = [] then none
      else some (toString (roundPy (listMax b.temps)))
    low := if b.temps = [] then none
      else some (toString (roundPy (listMin b.temps)))
    wind_kmh := toString (roundPy
      (match mid.bind (fun j => b.winds.get? j) with
       | some v => v
       | none => if b.winds = [] then pofInt 0
          else pdiv (psum b.winds) (pofInt b.winds.length)))
    gust_kmh := if b.gusts = [] then none
      else some (toString (roundPy (listMax b.gusts)))
    wind_dir := windDirLabel
      (match mid.bind (fun j => b.wdir.get? j) with
       | some v => some v
       | none => b.wdir.head?)
    rain_mm := if b.rain = [] then "0"
      else fmtTenths (roundPy (pmul (psum b.rain) (pofInt 10)))
    humidity := if b.rh = [] then none
      else some (toString (roundPy (pdiv (psum b.rh) (pofInt b.rh.length))))
    desc := cloudDesc
      (match mid.bind (fun j => b.cloud.get? j) with
       | some v => some v
       | none => if b.cloud = [] then none
          else some (pdiv (psum b.cloud) (pofInt b.cloud.length))) }

/-- The nearest-hour scan for current conditions (lines 164-172). -/
def bestIdx (initstamp : Int) (hours : List Int) (now : PyF) : Nat :=
  let init : Nat × PyF := (0,
    match hours with
    | [] => pofInt 999999
    | h0 :: _ => pabs (psub (pofInt (initstamp + h0 * 3600)) now))
  (hours.enum.foldl (fun best p =>
    let diff := pabs (psub (pofInt (initstamp + p.2 * 3600)) now)
    if pltb diff best.2 then (p.1, diff) else best) init).1

/-- `result["current"]` (lines 184-193).  The degraded payload emits only
`temp_c` and `desc`; absent JSON keys are modelled as `none` / `""`. -/
structure Current where
  temp_c : Option String
  wind_kmh : Option String
  gust_kmh : Option String
  wind_dir : String
  humidity : Option String
  rain_mm : Option String
  cloud_pct : Option String
  desc : String
  deriving DecidableEq, Repr

structure WeatherResult where
  location : String
  current : Current
  days : List (String × DaySummary)
  deriving DecidableEq, Repr

/-- The degraded payload of the `except` branch (line 231). -/
def degradedResult : WeatherResult :=
  ⟨"Auckland", ⟨none, none, none, "", none, none, none, "Unavailable"⟩, []⟩

/-- Parsed spot payload: `spot.get("gmt_hour_offset", 0)`. -/
structure SpotP where
  gmt_hour_offset : Option Int
  deriving DecidableEq, Repr

/-- Parsed forecast payload after `fcst_data.get("fcst", {})`; each field
mirrors one `fcst.get(...)` with its default.  A payload may be missing
any of them without raising. -/
structure FcstP where
  initstamp : Option Int
  hours : Option (List Int)
  TMPE : Option (List (Option PyF))
  WINDSPD : Option (List (Option PyF))
  GUST : Option (List (Option PyF))
  PCPT : Option (List (Option PyF))
  RH : Option (List (Option PyF))
  WINDDIR : Option (List (Option PyF))
  TCDC : Option (List (Option PyF))
  deriving DecidableEq, Repr

def emptyFcst : FcstP :=
  ⟨none, none, none, none, none, none, none, none, none⟩

def sortByKey (l : List (String × Bucket)) : List (String × Bucket) :=
  l.insertionSort (fun a b => ¬(lexLt b.1.data a.1.data = true))

/-- The pure body of `fetch_weather`'s `try` block (lines 120-226) given
an already parsed payload; `now_ts` is the `time.time()` of line 165. -/
def aggregate (spot : SpotP) (f : FcstP) (now_ts : PyF) : WeatherResult :=
  let initstamp := f.initstamp.getD 0
  let hours := f.hours.getD []
  let temps := f.TMPE.getD []
  let winds := f.WINDSPD.getD []
  let gusts := f.GUST.getD []
  let rain := f.PCPT.getD []
  let rh := f.RH.getD []
  let wdir := f.WINDDIR.getD []
  let cloud := f.TCDC.getD []
  let tz := (spot.gmt_hour_offset.getD 0) * 3600
  let daily := buildDaily initstamp tz hours temps winds gusts rain rh
    wdir cloud
  let bi := bestIdx initstamp hours now_ts
  let cur_temp := presentAt temps bi
  let cur_wind := presentAt winds bi
  let cur_gust := presentAt gusts bi
  let cur_rh := presentAt rh bi
  let cur_wdir := presentAt wdir bi
  let cur_cloud := presentAt cloud bi
  let cur_rain := presentAt rain bi
  { location := "Auckland"
    current :=
      { temp_c := cur_temp.map (fun t => toString (roundPy t))
        wind_kmh := cur_wind.map (fun t => toString (roundPy t))
        gust_kmh := cur_gust.map (fun t => toString (roundPy t))
        wind_dir := windDirLabel cur_wdir
        humidity := cur_rh.map (fun t => toString (roundPy t))
        rain_mm := cur_rain.map (fun t =>
          fmtTenths (roundPy (pmul t (pofInt 10))))
        cloud_pct := cur_cloud.map (fun t => toString (roundPy t))
        desc := cloudDesc cur_cloud }
    days := (sortByKey daily).map (fun p => (p.1, summarize p.2)) }

structure WCache where
  data : Option WeatherResult
  ts : PyF
  deriving DecidableEq, Repr

def WEATHER_TTL : PyF := pofInt 600

def initWCache : WCache := ⟨none, pofInt 0⟩

/-- `fetch_weather()` (lines 94-231): cache check, then the `try` body on
the parsed upstream payload (`Except.error` models any raising step:
network failure, `json.loads` failure, a wrongly-typed payload), caching
the fresh result; any raise yields the degraded payload and leaves the
cache untouched. -/
def fetch_weather (c : WCache) (now now_ts : PyF)
    (upstream : Except Unit (SpotP × FcstP)) : WeatherResult × WCache :=
  if c.data.isSome ∧ pltb (psub now c.ts) WEATHER_TTL = true then
    (c.data.getD degradedResult, c)
  else
    match upstream with
    | .error _ => (degradedResult, c)
    | .ok (spot, f) =>
      let r := aggregate spot f now_ts
      (r, ⟨some r, now⟩)

/-! ### Correctness of the day-bucket grouping

`specBucket` describes a bucket directly: each field is the subsequence,
in forecast order, of the present samples whose hour falls on the given
local date.  The fold lemma `lookupA_buildDaily` states that the
defaultdict accumulation produces exactly these buckets. -/

def localTsOf (initstamp tz hr : Int) : Int := initstamp + hr * 3600 + tz

/-- Field-wise concatenation of buckets. -/
def bApp (b1 b2 : Bucket) : Bucket :=
  ⟨b1.temps ++ b2.temps, b1.winds ++ b2.winds, b1.gusts ++ b2.gusts,
    b1.rain ++ b2.rain, b1.rh ++ b2.rh, b1.wdir ++ b2.wdir,
    b1.cloud ++ b2.cloud, b1.hoursLocal ++ b2.hoursLocal⟩

/-- Contribution of one `(i, hr)` pair. -/
def oneB (initstamp tz : Int)
    (temps winds gusts rain rh wdir cloud : List (Option PyF))
    (p : Nat × Int) : Bucket :=
  ⟨entryOf temps p.1, entryOf winds p.1, entryOf gusts p.1,
    entryOf rain p.1, entryOf rh p.1, entryOf wdir p.1,
    entryOf cloud p.1, [hourOfTs (localTsOf initstamp tz p.2)]⟩

/-- The bucket for local date `d` described directly: present samples of
the indices assigned to `d`, in order. -/
def specBucket (initstamp tz : Int)
    (temps winds gusts rain rh wdir cloud : List (Option PyF))
    (d : String) (l : List (Nat × Int)) : Bucket :=
  ⟨l.filterMap (fun p => if dateStrOf (localTsOf initstamp tz p.2) = d
      then presentAt temps p.1 else none),
   l.filterMap (fun p => if dateStrOf (localTsOf initstamp tz p.2) = d
      then presentAt winds p.1 else none),
   l.filterMap (fun p => if dateStrOf (localTsOf initstamp tz p.2) = d
      then presentAt gusts p.1 else none),
   l.filterMap (fun p => if dateStrOf (localTsOf initstamp tz p.2) = d
      then presentAt rain p.1 else none),
   l.filterMap (fun p => if dateStrOf (localTsOf initstamp tz p.2) = d
      then presentAt rh p.1 else none),
   l.filterMap (fun p => if dateStrOf (localTsOf initstamp tz p.2) = d
      then presentAt wdir p.1 else none),
   l.filterMap (fun p => if dateStrOf (localTsOf initstamp tz p.2) = d
      then presentAt cloud p.1 else none),
   l.filterMap (fun p => if dateStrOf (localTsOf initstamp tz p.2) = d
      then some (hourOfTs (localTsOf initstamp tz p.2)) else none)⟩

theorem bApp_empty_left (b : Bucket) : bApp emptyBucket b = b := by
  cases b; rfl

theorem bApp_empty_right (b : Bucket) : bApp b emptyBucket = b := by
  cases b; simp [bApp, emptyBucket]

theorem bApp_assoc (a b c : Bucket) :
    bApp (bApp a b) c = bApp a (bApp b c) := by
  cases a; cases b; cases c; simp [bApp]

section BucketFold

variable (initstamp tz : Int)
variable (temps winds gusts rain rh wdir cloud : List (Option PyF))

theorem specBucket_cons (d : String) (p : Nat × Int)
    (l : List (Nat × Int)) :
    specBucket initstamp tz temps winds gusts rain rh wdir cloud d
        (p :: l) =
      if dateStrOf (localTsOf initstamp tz p.2) = d then
        bApp (oneB initstamp tz temps winds gusts rain rh wdir cloud p)
          (specBucket initstamp tz temps winds gusts rain rh wdir cloud d l)
      else
        specBucket initstamp tz temps winds gusts rain rh wdir cloud d l := by
  by_cases hd : dateStrOf (localTsOf initstamp tz p.2) = d
  · rw [if_pos hd]
    have key : ∀ arr : List (Option PyF),
        List.filterMap (fun q =>
          if dateStrOf (localTsOf initstamp tz q.2) = d
          then presentAt arr q.1 else none) (p :: l) =
        entryOf arr p.1 ++ List.filterMap (fun q =>
          if dateStrOf (localTsOf initstamp tz q.2) = d
          then presentAt arr q.1 else none) l := by
      intro arr
      rw [List.filterMap_cons, if_pos hd]
      cases h : presentAt arr p.1 <;> simp [entryOf, h]
    have keyh :
        List.filterMap (fun q =>
          if dateStrOf (localTsOf initstamp tz q.2) = d
          then some (hourOfTs (localTsOf initstamp tz q.2)) else none)
          (p :: l) =
        [hourOfTs (localTsOf initstamp tz p.2)] ++ List.filterMap (fun q =>
          if dateStrOf (localTsOf initstamp tz q.2) = d
          then some (hourOfTs (localTsOf initstamp tz q.2)) else none)
          l := by
      rw [List.filterMap_cons, if_pos hd]
      simp
    simp only [specBucket, oneB, bApp, Bucket.mk.injEq]
    exact ⟨key temps, key winds, key gusts, key rain, key rh, key wdir,
      key cloud, keyh⟩
  · rw [if_neg hd]
    unfold specBucket
    simp only [List.filterMap_cons, if_neg hd]

theorem stepB_eq (acc : List (String × Bucket)) (p : Nat × Int) :
    stepB initstamp tz temps winds gusts rain rh wdir cloud acc p =
      upsertA (dateStrOf (localTsOf initstamp tz p.2))
        (bApp ((lookupA (dateStrOf (localTsOf initstamp tz p.2))
            acc).getD emptyBucket)
          (oneB initstamp tz temps winds gusts rain rh wdir cloud p))
        acc := by
  rw [stepB]
  rfl

theorem specBucket_nil (d : String) :
    specBucket initstamp tz temps winds gusts rain rh wdir cloud d [] =
      emptyBucket := rfl

/-- The defaultdict fold computes exactly the spec buckets (generalised
over the starting accumulator). -/
theorem lookupA_foldl_stepB (d : String) (l : List (Nat × Int)) :
    ∀ acc : List (String × Bucket),
    lookupA d (l.foldl
        (stepB initstamp tz temps winds gusts rain rh wdir cloud) acc) =
      match lookupA d acc with
      | some b => some (bApp b
          (specBucket initstamp tz temps winds gusts rain rh wdir cloud d l))
      | none =>
        if (specBucket initstamp tz temps winds gusts rain rh wdir cloud
            d l).hoursLocal = [] then none
        else some
          (specBucket initstamp tz temps winds gusts rain rh wdir cloud
            d l) := by
  induction l with
  | nil =>
    intro acc
    rw [List.foldl_nil, specBucket_nil]
    cases h : lookupA d acc with
    | some b =>
      dsimp only
      rw [bApp_empty_right]
    | none => rfl
  | cons p l ih =>
    intro acc
    rw [List.foldl_cons, stepB_eq,
      specBucket_cons initstamp tz temps winds gusts rain rh wdir cloud d p l]
    by_cases hd : dateStrOf (localTsOf initstamp tz p.2) = d
    · rw [if_pos hd, hd, ih]
      rw [lookupA_upsertA_self]
      cases h : lookupA d acc with
      | some b =>
        dsimp only
        simp only [Option.getD_some]
        rw [bApp_assoc]
      | none =>
        dsimp only
        simp only [Option.getD_none]
        rw [bApp_empty_left]
        rw [if_neg (by
          show (bApp (oneB initstamp tz temps winds gusts rain rh wdir
            cloud p) _).hoursLocal ≠ []
          simp [bApp, oneB])]
    · rw [if_neg hd, ih]
      rw [lookupA_upsertA_ne _ _ _ _ (fun h => hd h.symm)]

end BucketFold

theorem upsertA_keys_of_some {α : Type} (k : String) (v : α)
    (l : List (String × α)) (h : (lookupA k l).isSome) :
    (upsertA k v l).map Prod.fst = l.map Prod.fst := by
  rw [upsertA, if_pos h]
  induction l with
  | nil => rfl
  | cons p rest ih =>
    by_cases hk : p.1 = k
    · rw [replaceA, if_pos hk]
      simp [hk]
    · rw [replaceA, if_neg hk, List.map_cons, List.map_cons]
      by_cases hs : (lookupA k rest).isSome
      · rw [ih hs]
      · have hnone : lookupA k rest = none := by
          cases hx : lookupA k rest with
          | none => rfl
          | some w => rw [hx] at hs; simp at hs
        clear ih h hs
        congr 1
        induction rest with
        | nil => rfl
        | cons q qrest ihq =>
          by_cases hq : q.1 = k
          · rw [lookupA, if_pos hq] at hnone
            simp at hnone
          · rw [lookupA, if_neg hq] at hnone
            rw [replaceA, if_neg hq, List.map_cons, List.map_cons,
              ihq hnone]

theorem lookupA_none_iff {α : Type} (k : String) (l : List (String × α)) :
    lookupA k l = none ↔ k ∉ l.map Prod.fst := by
  induction l with
  | nil => simp [lookupA]
  | cons p rest ih =>
    rw [lookupA, List.map_cons]
    by_cases hk : p.1 = k
    · simp [hk]
    · simp only [if_neg hk, List.mem_cons, ih]
      constructor
      · intro h hx
        rcases hx with hx | hx
        · exact hk hx.symm
        · exact h hx
      · intro h
        exact fun hx => h (Or.inr hx)

theorem upsertA_keys_nodup {α : Type} (k : String) (v : α)
    (l : List (String × α)) (h : (l.map Prod.fst).Nodup) :
    ((upsertA k v l).map Prod.fst).Nodup := by
  by_cases hs : (lookupA k l).isSome
  · rw [upsertA_keys_of_some k v l hs]
    exact h
  · have hnone : lookupA k l = none := by
      cases hx : lookupA k l with
      | none => rfl
      | some w => rw [hx] at hs; simp at hs
    rw [upsertA, if_neg hs, List.map_append, List.map_cons, List.map_nil]
    rw [List.nodup_append]
    refine ⟨h, List.nodup_singleton k, ?_⟩
    intro a ha hb
    simp only [List.mem_singleton] at hb
    rw [hb] at ha
    exact (lookupA_none_iff k l).mp hnone ha

theorem foldl_stepB_keys_nodup (initstamp tz : Int)
    (temps winds gusts rain rh wdir cloud : List (Option PyF)) :
    ∀ (l : List (Nat × Int)) (acc : List (String × Bucket)),
    ((acc.map Prod.fst).Nodup) →
    (((l.foldl
        (stepB initstamp tz temps winds gusts rain rh wdir cloud)
        acc).map Prod.fst).Nodup) := by
  intro l
  induction l with
  | nil => intro acc h; exact h
  | cons p l ih =>
    intro acc h
    rw [List.foldl_cons, stepB_eq]
    exact ih _ (upsertA_keys_nodup _ _ _ h)

theorem lookupA_perm {α : Type} {l l' : List (String × α)} (h : l.Perm l') :
    (l.map Prod.fst).Nodup → ∀ k, lookupA k l = lookupA k l' := by
  induction h with
  | nil => intro _ k; rfl
  | cons x hperm ih =>
    intro hn k
    rw [lookupA, lookupA]
    by_cases hk : x.1 = k
    · rw [if_pos hk, if_pos hk]
    · rw [if_neg hk, if_neg hk]
      exact ih (by simpa using hn.of_cons) k
  | swap x y l =>
    intro hn k
    have hxy : y.1 ≠ x.1 := by
      simp only [List.map_cons, List.nodup_cons, List.mem_cons] at hn
      exact fun he => hn.1 (Or.inl he)
    by_cases hky : y.1 = k
    · by_cases hkx : x.1 = k
      · exact absurd (hky.trans hkx.symm) hxy
      · simp [lookupA, hky, hkx]
    · by_cases hkx : x.1 = k
      · simp [lookupA, hky, hkx]
      · simp [lookupA, hky, hkx]
  | trans h1 h2 ih1 ih2 =>
    intro hn k
    rw [ih1 hn k]
    have hn2 : _ := ((h1.map Prod.fst).nodup_iff).mp hn
    exact ih2 hn2 k

theorem lookupA_map_val {α β : Type} (k : String) (g : α → β)
    (l : List (String × α)) :
    lookupA k (l.map (fun p => (p.1, g p.2))) = (lookupA k l).map g := by
  induction l with
  | nil => rfl
  | cons p rest ih =>
    rw [List.map_cons, lookupA, lookupA]
    by_cases hk : p.1 = k
    · rw [if_pos hk, if_pos hk]; rfl
    · rw [if_neg hk, if_neg hk]; exact ih

theorem lookupA_sortByKey (l : List (String × Bucket))
    (h : (l.map Prod.fst).Nodup) (k : String) :
    lookupA k (sortByKey l) = lookupA k l := by
  have hperm : (sortByKey l).Perm l := List.perm_insertionSort _ l
  exact (lookupA_perm hperm.symm h k).symm

/-- The local hours assigned to local date `d`: hour index `i` with
offset `hours[i]` lands on the date of
`initstamp + hours[i]*3600 + tz_offset` read as a UTC wall clock. -/
def assignedHours (initstamp tz : Int) (hours : List Int) (d : String) :
    List Nat :=
  hours.enum.filterMap (fun p =>
    if dateStrOf (localTsOf initstamp tz p.2) = d
    then some (hourOfTs (localTsOf initstamp tz p.2)) else none)

/-- The present samples of array `arr` whose hour index is assigned to
local date `d`, in forecast order. -/
def assignedVals (initstamp tz : Int) (hours : List Int)
    (arr : List (Option PyF)) (d : String) : List PyF :=
  hours.enum.filterMap (fun p =>
    if dateStrOf (localTsOf initstamp tz p.2) = d
    then presentAt arr p.1 else none)

theorem specBucket_fields (initstamp tz : Int)
    (temps winds gusts rain rh wdir cloud : List (Option PyF))
    (hours : List Int) (d : String) :
    (specBucket initstamp tz temps winds gusts rain rh wdir cloud d
        hours.enum).hoursLocal = assignedHours initstamp tz hours d ∧
    (specBucket initstamp tz temps winds gusts rain rh wdir cloud d
        hours.enum).temps = assignedVals initstamp tz hours temps d ∧
    (specBucket initstamp tz temps winds gusts rain rh wdir cloud d
        hours.enum).winds = assignedVals initstamp tz hours winds d ∧
    (specBucket initstamp tz temps winds gusts rain rh wdir cloud d
        hours.enum).wdir = assignedVals initstamp tz hours wdir d :=
  ⟨rfl, rfl, rfl, rfl⟩

/-- Shared reduction for the per-day claim theorems: a date appears in
the output exactly when some hour is assigned to it, and its summary is
`summarize` of the directly described bucket. -/
theorem lookupA_aggregate_days (spot : SpotP) (f : FcstP) (now_ts : PyF)
    (d : String) :
    lookupA d (aggregate spot f now_ts).days =
      (if (assignedHours (f.initstamp.getD 0)
            ((spot.gmt_hour_offset.getD 0) * 3600) (f.hours.getD []) d) = []
       then none
       else some (summarize (specBucket (f.initstamp.getD 0)
         ((spot.gmt_hour_offset.getD 0) * 3600) (f.TMPE.getD [])
         (f.WINDSPD.getD []) (f.GUST.getD []) (f.PCPT.getD [])
         (f.RH.getD []) (f.WINDDIR.getD []) (f.TCDC.getD []) d
         (f.hours.getD []).enum))) := by
  have hdays : (aggregate spot f now_ts).days =
      (sortByKey (buildDaily (f.initstamp.getD 0)
        ((spot.gmt_hour_offset.getD 0) * 3600) (f.hours.getD [])
        (f.TMPE.getD []) (f.WINDSPD.getD []) (f.GUST.getD [])
        (f.PCPT.getD []) (f.RH.getD []) (f.WINDDIR.getD [])
        (f.TCDC.getD []))).map (fun p => (p.1, summarize p.2)) := rfl
  rw [hdays, lookupA_map_val, buildDaily]
  rw [lookupA_sortByKey _ (foldl_stepB_keys_nodup _ _ _ _ _ _ _ _ _
    (f.hours.getD []).enum [] List.nodup_nil)]
  rw [lookupA_foldl_stepB]
  rw [show lookupA d ([] : List (String × Bucket)) = none from rfl]
  dsimp only
  by_cases hE : (specBucket (f.initstamp.getD 0)
      ((spot.gmt_hour_offset.getD 0) * 3600) (f.TMPE.getD [])
      (f.WINDSPD.getD []) (f.GUST.getD []) (f.PCPT.getD [])
      (f.RH.getD []) (f.WINDDIR.getD []) (f.TCDC.getD []) d
      (f.hours.getD []).enum).hoursLocal = []
  · have hE' : (assignedHours (f.initstamp.getD 0)
        ((spot.gmt_hour_offset.getD 0) * 3600) (f.hours.getD []) d) = [] :=
      hE
    rw [if_pos hE, if_pos hE']
    rfl
  · have hE' : ¬(assignedHours (f.initstamp.getD 0)
        ((spot.gmt_hour_offset.getD 0) * 3600) (f.hours.getD []) d) = [] :=
      hE
    rw [if_neg hE, if_neg hE']
    rfl

/-- C5: each forecast hour is bucketed by the local calendar date of
`initstamp + hours[i]*3600 + tz_offset` (read as UTC wall clock), a date
appears in the output iff some hour lands on it, and its `high`/`low`
are the formatted max/min of exactly the present temperature samples
assigned to that date (null when there are none) — for every timezone
offset, including ones that straddle local midnight. -/
theorem forecast_day_high_low (spot : SpotP) (f : FcstP) (now_ts : PyF)
    (d : String) :
    (lookupA d (aggregate spot f now_ts).days).map
        (fun s => (s.high, s.low)) =
      (if (assignedHours (f.initstamp.getD 0)
            ((spot.gmt_hour_offset.getD 0) * 3600) (f.hours.getD []) d) = []
       then none
       else
        some (
          (if assignedVals (f.initstamp.getD 0)
              ((spot.gmt_hour_offset.getD 0) * 3600) (f.hours.getD [])
              (f.TMPE.getD []) d = [] then none
           else some (toString (roundPy (listMax (assignedVals
             (f.initstamp.getD 0) ((spot.gmt_hour_offset.getD 0) * 3600)
             (f.hours.getD []) (f.TMPE.getD []) d))))),
          (if assignedVals (f.initstamp.getD 0)
              ((spot.gmt_hour_offset.getD 0) * 3600) (f.hours.getD [])
              (f.TMPE.getD []) d = [] then none
           else some (toString (roundPy (listMin (assignedVals
             (f.initstamp.getD 0) ((spot.gmt_hour_offset.getD 0) * 3600)
             (f.hours.getD []) (f.TMPE.getD []) d))))))) := by
  rw [lookupA_aggregate_days]
  by_cases hE : (assignedHours (f.initstamp.getD 0)
      ((spot.gmt_hour_offset.getD 0) * 3600) (f.hours.getD []) d) = []
  · rw [if_pos hE, if_pos hE]; rfl
  · rw [if_neg hE, if_neg hE]; rfl

/-- C6 formalised as the spec words it: whenever a bucket has a midday
index (a first local hour in `[11,14]`), the reported wind speed and
direction are *the samples at that index* of the bucket's wind lists. -/
def claimC6Stated : Prop :=
  ∀ (spot : SpotP) (f : FcstP) (now_ts : PyF) (d : String)
    (s : DaySummary) (j : Nat),
    lookupA d (aggregate spot f now_ts).days = some s →
    middayIdx (assignedHours (f.initstamp.getD 0)
      ((spot.gmt_hour_offset.getD 0) * 3600) (f.hours.getD []) d) =
      some j →
    (∃ w, (assignedVals (f.initstamp.getD 0)
        ((spot.gmt_hour_offset.getD 0) * 3600) (f.hours.getD [])
        (f.WINDSPD.getD []) d).get? j = some w ∧
      s.wind_kmh = toString (roundPy w)) ∧
    (∃ w2, (assignedVals (f.initstamp.getD 0)
        ((spot.gmt_hour_offset.getD 0) * 3600) (f.hours.getD [])
        (f.WINDDIR.getD []) d).get? j = some w2 ∧
      s.wind_dir = windDirLabel (some w2))

/-- Counterexample input for C6: two hours landing on local
`1970-01-01` at local hours 10 and 11; the wind-speed array stops after
index 0, so the hour-11 (midday) wind sample is absent and the wind list
is `[20]`, misaligned with the midday index 1. -/
def f6 : FcstP :=
  ⟨some 0, some [10, 11], some [some (pofInt 1), some (pofInt 2)],
    some [some (pofInt 20)], none, none, none, some [some (pofInt 90)],
    none⟩

/-- The summary the code produces for `f6` on `1970-01-01`. -/
def s6 : DaySummary :=
  ⟨some "2", some "1", "20", none, "E", "0", none, ""⟩

/-- C6 counterexample: a midday hour exists (index 1) but the wind list
has no entry at that index — the sample was skipped — and the code
reports the average fallback instead of a midday sample, so the claim as
stated fails. -/
theorem c6_counterexample : ¬claimC6Stated := by
  intro h
  obtain ⟨⟨w, hw, -⟩, -⟩ :=
    h ⟨none⟩ f6 (pofInt 0) "1970-01-01" s6 1 (by decide) (by decide)
  have hnone : (assignedVals (f6.initstamp.getD 0)
      (((⟨none⟩ : SpotP).gmt_hour_offset.getD 0) * 3600)
      (f6.hours.getD []) (f6.WINDSPD.getD []) "1970-01-01").get? 1 =
      none := by decide
  rw [hnone] at hw
  exact Option.noConfusion hw

/-- C6 (amended): wind and wind direction use the sample at the midday
index *of the respective field list* when that list is long enough;
when no midday hour exists or the field list is too short (absent
entries shorten and misalign it), wind falls back to the average of the
bucket's wind speeds (0 when there are none) and wind direction to the
first available sample (empty label when there is none).  Short or
absent entries are skipped, never defaulted to zero. -/
theorem forecast_day_wind (spot : SpotP) (f : FcstP) (now_ts : PyF)
    (d : String) :
    (lookupA d (aggregate spot f now_ts).days).map
        (fun s => (s.wind_kmh, s.wind_dir)) =
      (if (assignedHours (f.initstamp.getD 0)
            ((spot.gmt_hour_offset.getD 0) * 3600) (f.hours.getD []) d) = []
       then none
       else
        some (
          toString (roundPy
            (match (middayIdx (assignedHours (f.initstamp.getD 0)
                ((spot.gmt_hour_offset.getD 0) * 3600)
                (f.hours.getD []) d)).bind
              (fun j => (assignedVals (f.initstamp.getD 0)
                ((spot.gmt_hour_offset.getD 0) * 3600) (f.hours.getD [])
                (f.WINDSPD.getD []) d).get? j) with
             | some v => v
             | none =>
               if assignedVals (f.initstamp.getD 0)
                   ((spot.gmt_hour_offset.getD 0) * 3600)
                   (f.hours.getD []) (f.WINDSPD.getD []) d = []
               then pofInt 0
               else pdiv (psum (assignedVals (f.initstamp.getD 0)
                   ((spot.gmt_hour_offset.getD 0) * 3600)
                   (f.hours.getD []) (f.WINDSPD.getD []) d))
                 (pofInt ((assignedVals (f.initstamp.getD 0)
                   ((spot.gmt_hour_offset.getD 0) * 3600)
                   (f.hours.getD []) (f.WINDSPD.getD []) d).length)))),
          windDirLabel
            (match (middayIdx (assignedHours (f.initstamp.getD 0)
                ((spot.gmt_hour_offset.getD 0) * 3600)
                (f.hours.getD []) d)).bind
              (fun j => (assignedVals (f.initstamp.getD 0)
                ((spot.gmt_hour_offset.getD 0) * 3600) (f.hours.getD [])
                (f.WINDDIR.getD []) d).get? j) with
             | some v => some v
             | none => (assignedVals (f.initstamp.getD 0)
                 ((spot.gmt_hour_offset.getD 0) * 3600) (f.hours.getD [])
                 (f.WINDDIR.getD []) d).head?))) := by
  rw [lookupA_aggregate_days]
  by_cases hE : (assignedHours (f.initstamp.getD 0)
      ((spot.gmt_hour_offset.getD 0) * 3600) (f.hours.getD []) d) = []
  · rw [if_pos hE, if_pos hE]; rfl
  · rw [if_neg hE, if_neg hE]; rfl

/-- C7 formalised as stated: every total upstream failure — a raising
fetch (network error, malformed payload) *and* a parseable payload with
the required forecast fields missing — yields exactly the degraded
`{current: {temp: null, desc: "Unavailable"}, days: {}}` payload. -/
def claimC7Stated : Prop :=
  (∀ (now now_ts : PyF) (e : Unit),
    (fetch_weather initWCache now now_ts (.error e)).1 = degradedResult) ∧
  (∀ (now now_ts : PyF) (spot : SpotP),
    (fetch_weather initWCache now now_ts (.ok (spot, emptyFcst))).1 =
      degradedResult)

/-- C7 counterexample: a well-formed payload with all forecast fields
missing does not raise — every `.get(...)` default applies — so the code
returns an empty summary whose `desc` is `""`, not the degraded payload
with `desc = "Unavailable"`. -/
theorem c7_counterexample : ¬claimC7Stated := by
  intro h
  have heq := h.2 (pofInt 0) (pofInt 0) ⟨none⟩
  have hne : (fetch_weather initWCache (pofInt 0) (pofInt 0)
      (.ok (⟨none⟩, emptyFcst))).1 ≠ degradedResult := by decide
  exact hne heq

/-- C7 (amended): an upstream interaction that raises (network error,
unparseable or wrongly-typed payload) yields exactly the degraded
payload, leaves the cache untouched, and no exception reaches the HTTP
layer (the model is total); a parseable payload with missing forecast
fields instead yields an empty summary — null temperature, empty
description, no days — not the `"Unavailable"` payload. -/
theorem weather_error_degraded (now now_ts : PyF) (e : Unit) :
    fetch_weather initWCache now now_ts (.error e) =
      (degradedResult, initWCache) ∧
    (fetch_weather initWCache now now_ts (.ok (⟨none⟩, emptyFcst))).1 =
      ⟨"Auckland", ⟨none, none, none, "", none, none, none, ""⟩, []⟩ := by
  constructor
  · rfl
  · rfl

/-! ## Market quotes (server.py lines 29-32, 41-69, 318-325) -/

/-- One entry of the quotes payload. -/
structure QEntry where
  price : Option PyF
  change_pct : Option PyF
  deriving DecidableEq, Repr

/-- The fields of `data["chart"]["result"][0]["meta"]` the code reads;
a missing `regularMarketPrice` raises and is part of the `Except.error`
case of the upstream. -/
structure QMeta where
  regularMarketPrice : PyF
  chartPreviousClose : Option PyF
  previousClose : Option PyF
  deriving DecidableEq, Repr

def QUOTE_SYMBOLS : List (String × String) :=
  [("SPX", "^GSPC"), ("QQQ", "QQQ"), ("Gold", "GC=F"), ("BTC", "BTC-USD")]

/-- `round(x, 2)`. -/
def round2 (q : PyF) : PyF :=
  pdiv (pofInt (roundPy (pmul q (pofInt 100)))) (pofInt 100)

/-- Python `a or b` on optional numbers: the first truthy operand
(`None` and `0` are falsy). -/
def pyOr (a b : Option PyF) : Option PyF :=
  match a with
  | some x => if x.n ≠ 0 then some x else b
  | none => b

/-- The per-symbol `try` body of `fetch_quotes` (lines 48-65): on any
raise, the null entry; otherwise price and percent change, both rounded
to two decimals, with the percent 0 when no usable previous close
exists. -/
def fetchSym (u : String → Except Unit QMeta) (symbol : String) :
    QEntry :=
  match u symbol with
  | .error _ => ⟨none, none⟩
  | .ok m =>
    let prev := pyOr m.chartPreviousClose m.previousClose
    let pct : PyF :=
      match prev with
      | some p =>
        if p.n ≠ 0 then
          pmul (pdiv (psub m.regularMarketPrice p) p) (pofInt 100)
        else pofInt 0
      | none => pofInt 0
    ⟨some (round2 m.regularMarketPrice), some (round2 pct)⟩

structure QCache where
  data : Option (List (String × QEntry))
  ts : PyF
  deriving DecidableEq, Repr

def QUOTES_TTL : PyF := pofInt 120

def initQCache : QCache := ⟨none, pofInt 0⟩

/-- `fetch_quotes()` (lines 41-69): serve from the cache while it is
fresh, otherwise fetch all four symbols — failures included — and cache
the whole result with the current timestamp. -/
def fetch_quotes (u : String → Except Unit QMeta) (c : QCache)
    (now : PyF) : List (String × QEntry) × QCache :=
  if c.data.isSome ∧ pltb (psub now c.ts) QUOTES_TTL = true then
    (c.data.getD [], c)
  else
    let results := QUOTE_SYMBOLS.map (fun p => (p.1, fetchSym u p.2))
    (results, ⟨some results, now⟩)

/-- C10: when the upstream fetch for a symbol fails, `fetch_quotes`
records `{price: null, change_pct: null}` for it and caches the whole
result with a fresh timestamp, so any call in the following 120-second
window — with any upstream whatsoever — returns the same null entries
without consulting the upstream. -/
theorem quotes_failure_cached (u u' : String → Except Unit QMeta)
    (c : QCache) (now now' : PyF) (label sym : String)
    (hmiss : ¬(c.data.isSome ∧ pltb (psub now c.ts) QUOTES_TTL = true))
    (hmem : (label, sym) ∈ QUOTE_SYMBOLS)
    (hfail : u sym = .error ())
    (hfresh : pltb (psub now' now) QUOTES_TTL = true) :
    lookupA label (fetch_quotes u c now).1 = some ⟨none, none⟩ ∧
    (fetch_quotes u c now).2 = ⟨some (fetch_quotes u c now).1, now⟩ ∧
    fetch_quotes u' (fetch_quotes u c now).2 now' =
      ((fetch_quotes u c now).1, (fetch_quotes u c now).2) := by
  rw [fetch_quotes, if_neg hmiss]
  refine ⟨?_, rfl, ?_⟩
  · simp only [QUOTE_SYMBOLS, List.mem_cons, List.mem_singleton,
      Prod.mk.injEq, List.not_mem_nil] at hmem
    rcases hmem with ⟨h1, h2⟩ | ⟨h1, h2⟩ | ⟨h1, h2⟩ | ⟨h1, h2⟩ | hF <;>
      first
      | (subst h1; subst h2
         simp [QUOTE_SYMBOLS, lookupA, fetchSym, hfail])
      | exact absurd hF (by simp)
  · rw [fetch_quotes,
      if_pos (And.intro (by simp) hfresh)]
    rfl

/-- Witness for `quotes_failure_cached`: a failing upstream for BTC on a
cold cache at `t = 1000`, re-read at `t = 1100` with an upstream that
would now succeed. -/
theorem quotes_failure_cached_witness :
    lookupA "BTC" (fetch_quotes (fun _ => .error ()) initQCache
      (pofInt 1000)).1 = some ⟨none, none⟩ ∧
    (fetch_quotes (fun _ => .error ()) initQCache (pofInt 1000)).2 =
      ⟨some (fetch_quotes (fun _ => .error ()) initQCache
        (pofInt 1000)).1, pofInt 1000⟩ ∧
    fetch_quotes (fun _ => .ok ⟨pofInt 5, none, none⟩)
        (fetch_quotes (fun _ => .error ()) initQCache (pofInt 1000)).2
        (pofInt 1100) =
      ((fetch_quotes (fun _ => .error ()) initQCache (pofInt 1000)).1,
        (fetch_quotes (fun _ => .error ()) initQCache (pofInt 1000)).2) :=
  quotes_failure_cached (fun _ => .error ())
    (fun _ => .ok ⟨pofInt 5, none, none⟩) initQCache
    (pofInt 1000) (pofInt 1100) "BTC" "BTC-USD"
    (by decide) (by decide) rfl (by decide)

end DayPlanner
